import Mathlib

/-!
Verification of the model metadata resolution and caching subsystem of the
catwalk repository: the `names` package (canonical display-name resolver) and
the `apipie` command (content fingerprint, metadata cache, group resolution
pipeline, retrying transport).  Go code is shallowly embedded: strings are
processed as `List Char` (the inputs of interest are ASCII, where Go's
byte-oriented operations agree with character-oriented ones), the SQLite
tables are association lists with insert-or-replace semantics, and network
effects are oracle parameters.
-/

set_option maxRecDepth 100000
set_option maxHeartbeats 1600000

/-! ## Generic association-list store (models SQLite tables keyed by primary key) -/

/-- Lookup by key in an association list (first match). -/
def alookup {κ ν : Type} [DecidableEq κ] : List (κ × ν) → κ → Option ν
  | [], _ => none
  | (k, v) :: t, q => if k = q then some v else alookup t q

/-- Insert-or-replace (SQLite `INSERT OR REPLACE`): the key's previous row is
replaced, all other rows are kept. -/
def aupsert {κ ν : Type} [DecidableEq κ] (t : List (κ × ν)) (k : κ) (v : ν) :
    List (κ × ν) :=
  (k, v) :: t.filter (fun p => p.1 ≠ k)

/-! ## Go string primitives on `List Char` -/

/-- Go `strings.Split(s, sep)` for a single-character separator. -/
def splitOnChar (c : Char) : List Char → List (List Char)
  | [] => [[]]
  | x :: xs =>
    let r := splitOnChar c xs
    if x = c then [] :: r
    else
      match r with
      | [] => [[x]]
      | h :: t => (x :: h) :: t

/-- Go `strings.TrimSpace`: drop whitespace from both ends. -/
def trimSpaceList (l : List Char) : List Char :=
  ((l.dropWhile Char.isWhitespace).reverse.dropWhile Char.isWhitespace).reverse

/-- Go `strings.TrimPrefix`: drop `pre` when it is a prefix, else unchanged. -/
def trimPre (pre l : List Char) : List Char :=
  if pre.isPrefixOf l then l.drop pre.length else l

/-- Split at the first occurrence of (non-empty) `sep`; `none` when `sep` does
not occur.  Combines Go's `strings.Contains` (`isSome`) with
`strings.SplitN(s, sep, 2)` (the two parts). -/
def splitFirst (sep : List Char) : List Char → Option (List Char × List Char)
  | [] => none
  | c :: cs =>
    if sep.isPrefixOf (c :: cs) then some ([], (c :: cs).drop sep.length)
    else (splitFirst sep cs).map (fun p => (c :: p.1, p.2))

/-- Go `strings.Contains(s, sub)` for non-empty `sub`. -/
def goContains (s sub : String) : Bool :=
  (splitFirst sub.data s.data).isSome

/-- Go `strings.ToLower` (ASCII letters; the inputs of interest are ASCII). -/
def goToLower (s : String) : String :=
  ⟨s.data.map Char.toLower⟩

/-- Splitting used by Go `strings.Fields`: split on whitespace runs, keeping
empty pieces (they are filtered out by `goFields`). -/
def splitWS : List Char → List (List Char)
  | [] => [[]]
  | x :: xs =>
    let r := splitWS xs
    if x.isWhitespace then [] :: r
    else
      match r with
      | [] => [[x]]
      | h :: t => (x :: h) :: t

/-- Go `strings.Fields`: the maximal whitespace-free pieces of `l`. -/
def goFields (l : List Char) : List (List Char) :=
  (splitWS l).filter (fun w => w ≠ [])

/-- Go `strings.Join(ws, " ")` on character lists. -/
def joinSpace (ws : List (List Char)) : List Char :=
  List.intercalate [' '] ws

/-- Decimal digits to a number; helper for `goAtoi`. -/
def digitsToNat? : List Char → Option Nat
  | [] => none
  | l =>
    if l.all Char.isDigit then
      some (l.foldl (fun a c => a * 10 + (c.toNat - 48)) 0)
    else none

/-- Go `strconv.Atoi`: optional sign followed by one or more decimal digits
(64-bit overflow is not modelled; the indices parsed here are tiny). -/
def goAtoi (s : String) : Option Int :=
  match s.data with
  | '+' :: rest => (digitsToNat? rest).map (fun n => (n : Int))
  | '-' :: rest => (digitsToNat? rest).map (fun n => -(n : Int))
  | l => (digitsToNat? l).map (fun n => (n : Int))

namespace Names

/-- The static synonym table `modelNames` of the `names` package, in source
order (Go iterates the map in unspecified order; every property proved below
is order-independent or is stated about this fixed order where noted). -/
def modelNames : List (String × String) := [
  ("claude-sonnet-4-5-20250929", "Claude Sonnet 4.5"),
  ("claude-opus-4-5-20251101", "Claude Opus 4.5"),
  ("claude-3-5-haiku-20241022", "Claude 3.5 Haiku"),
  ("claude-3-5-sonnet-20241022", "Claude 3.5 Sonnet"),
  ("claude-3-opus-20240229", "Claude 3 Opus"),
  ("claude-3-haiku-20240307", "Claude 3 Haiku"),
  ("claude-sonnet-4", "Claude Sonnet 4"),
  ("claude-sonnet-4-5", "Claude Sonnet 4.5"),
  ("claude-opus-4", "Claude Opus 4"),
  ("claude-opus-4-1", "Claude Opus 4.1"),
  ("claude-opus-4-5", "Claude Opus 4.5"),
  ("claude-opus-4-5-think", "Claude Opus 4.5 Think"),
  ("claude-sonnet-4-5-20250214", "Claude Sonnet 4.5"),
  ("claude-haiku-4-5", "Claude Haiku 4.5"),
  ("claude-3-5-haiku", "Claude 3.5 Haiku"),
  ("claude-3-5-sonnet", "Claude 3.5 Sonnet"),
  ("claude-sonnet-4-0", "Claude Sonnet 4"),
  ("claude-opus-4-0", "Claude Opus 4"),
  ("claude-sonnet-4-5-think", "Claude Sonnet 4.5 Think"),
  ("claude-3-7-sonnet", "Claude 3.7 Sonnet"),
  ("gpt-5.2", "GPT-5.2"),
  ("gpt-5.2-codex", "GPT-5.2 Codex"),
  ("gpt-5.1-codex", "GPT-5.1 Codex"),
  ("gpt-5.1", "GPT-5.1"),
  ("gpt-4.1", "GPT-4.1"),
  ("gpt-4.1-mini", "GPT-4.1 Mini"),
  ("gpt-4.1-nano", "GPT-4.1 Nano"),
  ("gpt-4-turbo", "GPT-4 Turbo"),
  ("gpt-4-turbo-preview", "GPT-4 Turbo Preview"),
  ("gpt-4-vision-preview", "GPT-4 Vision"),
  ("gpt-3.5-turbo", "GPT-3.5 Turbo"),
  ("gpt-3.5-turbo-16k", "GPT-3.5 Turbo 16K"),
  ("o1-preview", "O1 Preview"),
  ("o1-mini", "O1 Mini"),
  ("o1", "O1"),
  ("o3", "O3"),
  ("o3-mini", "O3 Mini"),
  ("o3-pro", "O3 Pro"),
  ("o4-mini", "O4 Mini"),
  ("gpt-5", "GPT-5"),
  ("gpt-5-pro", "GPT-5 Pro"),
  ("gpt-5-mini", "GPT-5 Mini"),
  ("gpt-5-nano", "GPT-5 Nano"),
  ("gpt-5-codex", "GPT-5 Codex"),
  ("deepseek-r1", "DeepSeek R1"),
  ("deepseek-v3", "DeepSeek V3"),
  ("deepseek-v3-fast", "DeepSeek V3 Fast"),
  ("deepseek-v3.1-fast", "DeepSeek V3.1 Fast"),
  ("deepseek-v3.1-terminus", "DeepSeek V3.1 Terminus"),
  ("deepseek-v3.1-think", "DeepSeek V3.1 Think"),
  ("deepseek-v3.2", "DeepSeek V3.2"),
  ("deepseek-v3.2-exp", "DeepSeek V3.2 Exp"),
  ("deepseek-v3.2-fast", "DeepSeek V3.2 Fast"),
  ("deepseek-v3.2-think", "DeepSeek V3.2 Think"),
  ("deepseek-v3.2-speciale", "DeepSeek V3.2 Speciale"),
  ("deepseek-math-v2", "DeepSeek Math V2"),
  ("deepseek-ocr", "DeepSeek OCR"),
  ("phi-4-mini-reasoning", "Phi 4 Mini"),
  ("phi-4-reasoning", "Phi 4"),
  ("phi-4-mini", "Phi 4 Mini"),
  ("phi-4", "Phi 4"),
  ("phi-3.5-mini", "Phi 3.5 Mini"),
  ("phi-3.5", "Phi 3.5"),
  ("phi-3-mini", "Phi 3 Mini"),
  ("phi-3", "Phi 3"),
  ("bytedance-seed/seed-oss-36b-instruct", "ByteDance Seed OSS 36B"),
  ("gemini-3-flash-preview", "Gemini 3.0 Flash Preview"),
  ("gemini-3-flash-preview-free", "Gemini 3.0 Flash Preview (Free)"),
  ("gemini-2.5-pro", "Gemini 2.5 Pro"),
  ("gemini-2.5-flash", "Gemini 2.5 Flash"),
  ("gemini-2.5-flash-lite", "Gemini 2.5 Flash Lite"),
  ("gemini-2.5-flash-lite-preview-09-2025", "Gemini 2.5 Flash Lite Preview"),
  ("gemini-2.5-flash-preview-09-2025", "Gemini 2.5 Flash Preview"),
  ("gemini-2.5-flash-preview-05-20-nothink", "Gemini 2.5 Flash Preview (No Think)"),
  ("gemini-2.5-flash-preview-05-20-search", "Gemini 2.5 Flash Search"),
  ("gemini-2.5-flash-nothink", "Gemini 2.5 Flash (No Think)"),
  ("gemini-2.5-flash-search", "Gemini 2.5 Flash Search"),
  ("gemini-2.5-pro-preview-05-06", "Gemini 2.5 Pro Preview"),
  ("gemini-2.5-pro-preview-06-05", "Gemini 2.5 Pro Preview"),
  ("gemini-2.5-pro-search", "Gemini 2.5 Pro Search"),
  ("gemini-2.0-pro-exp-02-05", "Gemini 2.0 Pro"),
  ("gemini-2.0-flash-exp", "Gemini 2.0 Flash"),
  ("gemini-2.0-flash-free", "Gemini 2.0 Flash (Free)"),
  ("gemini-1.5-pro", "Gemini 1.5 Pro"),
  ("gemini-1.5-flash", "Gemini 1.5 Flash"),
  ("gemini-1.5-flash-8b", "Gemini 1.5 Flash 8B"),
  ("gemini-1.0-pro", "Gemini 1.0 Pro"),
  ("glm-4.7", "GLM-4.7"),
  ("glm-4.7-flash", "GLM-4.7 Flash"),
  ("glm-4.6", "GLM-4.6"),
  ("glm-4.6v", "GLM-4.6 Vision"),
  ("glm-4.5v", "GLM-4.5 Vision"),
  ("glm-4-flash", "GLM-4 Flash"),
  ("glm-4-plus", "GLM-4 Plus"),
  ("glm-4-air", "GLM-4 Air"),
  ("llama-4-maverick", "Llama 4 Maverick"),
  ("llama-4-scout", "Llama 4 Scout"),
  ("llama-3.3-70b-instruct", "Llama 3.3 70B"),
  ("llama-3.2-90b-vision-preview", "Llama 3.2 90B Vision"),
  ("llama-3.2-11b-vision-preview", "Llama 3.2 11B Vision"),
  ("llama-3.2-3b-instruct", "Llama 3.2 3B"),
  ("llama-3.2-1b-instruct", "Llama 3.2 1B"),
  ("llama-3.1-405b-instruct", "Llama 3.1 405B"),
  ("llama-3.1-70b-instruct", "Llama 3.1 70B"),
  ("llama-3.1-8b-instruct", "Llama 3.1 8B"),
  ("llama-3-70b-instruct", "Llama 3 70B"),
  ("llama-3-8b-instruct", "Llama 3 8B"),
  ("llama-2-70b-chat", "Llama 2 70B"),
  ("llama-2-13b-chat", "Llama 2 13B"),
  ("llama-2-7b-chat", "Llama 2 7B"),
  ("mistral-large-2411", "Mistral Large"),
  ("mistral-large-3", "Mistral Large 3"),
  ("mistral-large-2402", "Mistral Large (2024.02)"),
  ("mistral-medium-2312", "Mistral Medium"),
  ("mistral-small-2402", "Mistral Small"),
  ("mistral-7b-instruct-v0.3", "Mistral 7B v0.3"),
  ("mixtral-8x7b-instruct-v0.1", "Mixtral 8x7B"),
  ("mixtral-8x22b-instruct-v0.1", "Mixtral 8x22B"),
  ("mistral-nemo", "Mistral Nemo"),
  ("codestral-latest", "Codestral"),
  ("codestral-2405", "Codestral"),
  ("command-r-plus", "Command R+"),
  ("command-r-08-2024", "Command R"),
  ("command-r7b-12-2024", "Command R7B"),
  ("command-light", "Command Light"),
  ("command", "Command"),
  ("jamba-large-1.7", "Jamba Large 1.7"),
  ("jamba-mini-1.7", "Jamba Mini 1.7"),
  ("grok-4-1-fast-non-reasoning", "Grok 4.1 Fast"),
  ("grok-4-1-fast-reasoning", "Grok 4.1 Fast (Reasoning)"),
  ("grok-code-fast-1", "Grok Code Fast"),
  ("grok-2", "Grok 2"),
  ("grok-2-1212", "Grok 2"),
  ("grok-1-5", "Grok 1.5"),
  ("grok-beta", "Grok Beta"),
  ("qwen-2.5-coder-32b-instruct", "Qwen 2.5 Coder 32B"),
  ("qwen-2.5-72b-instruct", "Qwen 2.5 72B"),
  ("qwen-2.5-14b-instruct", "Qwen 2.5 14B"),
  ("qwen-2.5-7b-instruct", "Qwen 2.5 7B"),
  ("qwen-2.5-3b-instruct", "Qwen 2.5 3B"),
  ("qwen-2-72b-instruct", "Qwen 2 72B"),
  ("qwen-2-7b-instruct", "Qwen 2 7B"),
  ("qwq-32b-preview", "Qwen QwQ 32B"),
  ("qwq-32b", "Qwen QwQ 32B"),
  ("ernie-5.0-thinking-exp", "ERNIE 5.0 Thinking"),
  ("ernie-5.0-thinking-preview", "ERNIE 5.0 Thinking Preview"),
  ("ernie-4.5", "ERNIE 4.5"),
  ("ernie-4.5-turbo-latest", "ERNIE 4.5 Turbo"),
  ("ernie-4.5-turbo-vl", "ERNIE 4.5 Turbo Vision"),
  ("ernie-x1.1-preview", "ERNIE X1.1 Preview"),
  ("ernie-x1-turbo", "ERNIE X1 Turbo"),
  ("kimi-for-coding-free", "Kimi for Coding (Free)"),
  ("kimi-k2-thinking", "Kimi K2 Thinking"),
  ("kimi-k2-0905", "Kimi K2"),
  ("kimi-k2-0711", "Kimi K2 (0711)"),
  ("kimi-k2-turbo-preview", "Kimi K2 Turbo Preview"),
  ("qwen3-vl-235b-a22b-instruct", "Qwen3 VL 235B"),
  ("qwen3-vl-235b-a22b-thinking", "Qwen3 VL 235B Thinking"),
  ("qwen3-vl-30b-a3b-instruct", "Qwen3 VL 30B"),
  ("qwen3-vl-30b-a3b-thinking", "Qwen3 VL 30B Thinking"),
  ("qwen3-vl-plus", "Qwen3 VL Plus"),
  ("qwen3-max", "Qwen3 Max"),
  ("qwen3-next-80b-a3b-instruct", "Qwen3 Next 80B"),
  ("qwen3-next-80b-a3b-thinking", "Qwen3 Next 80B Thinking"),
  ("qwen3-235b-a22b-instruct-2507", "Qwen3 235B"),
  ("qwen3-235b-a22b-thinking-2507", "Qwen3 235B Thinking"),
  ("qwen3-235b-a22b", "Qwen3 235B"),
  ("qwen3-coder-30b-a3b-instruct", "Qwen3 Coder 30B"),
  ("qwen3-coder-480b-a35b-instruct", "Qwen3 Coder 480B"),
  ("qwen3-coder-flash", "Qwen3 Coder Flash"),
  ("qwen3-coder-plus", "Qwen3 Coder Plus"),
  ("qwen3-coder-plus-2025-07-22", "Qwen3 Coder Plus"),
  ("kat-dev", "Kat Dev"),
  ("jina-deepsearch-v1", "Jina DeepSearch V1"),
  ("mimo-v2-flash-free", "Mimo V2 Flash (Free)"),
  ("gpt-oss-120b", "GPT OSS 120B"),
  ("gpt-oss-20b", "GPT OSS 20B"),
  ("gpt-4o-audio-preview", "GPT-4o Audio Preview"),
  ("gpt-4o-search-preview", "GPT-4o Search"),
  ("gpt-4o-mini-search-preview", "GPT-4o Mini Search"),
  ("gpt-4o-2024-11-20", "GPT-4o"),
  ("gpt-4o", "GPT-4o"),
  ("gpt-4o-mini", "GPT-4o Mini"),
  ("coding-glm-4.6-free", "Coding GLM 4.6 (Free)"),
  ("coding-minimax-m2.1", "Coding MiniMax M2.1"),
  ("coding-minimax-m2", "Coding MiniMax M2"),
  ("coding-minimax-m2-free", "Coding MiniMax M2 (Free)"),
  ("anthropic/claude-sonnet-4", "Claude Sonnet 4"),
  ("anthropic/claude-sonnet-4.5", "Claude Sonnet 4.5"),
  ("anthropic/claude-3-opus", "Claude 3 Opus"),
  ("anthropic/claude-3.5-haiku", "Claude 3.5 Haiku"),
  ("anthropic/claude-3-haiku", "Claude 3 Haiku"),
  ("openai/gpt-5.2", "GPT-5.2"),
  ("openai/gpt-5.2-codex", "GPT-5.2 Codex"),
  ("openai/gpt-5", "GPT-5"),
  ("openai/gpt-4-turbo", "GPT-4 Turbo"),
  ("openai/gpt-4-turbo-preview", "GPT-4 Turbo Preview"),
  ("openai/gpt-3.5-turbo", "GPT-3.5 Turbo"),
  ("google/gemini-pro-1.5", "Gemini 1.5 Pro"),
  ("google/gemini-flash-1.5", "Gemini 1.5 Flash"),
  ("meta-llama/llama-3.3-70b-instruct", "Llama 3.3 70B"),
  ("meta-llama/llama-3.2-3b-instruct", "Llama 3.2 3B"),
  ("meta-llama/llama-3.1-405b-instruct", "Llama 3.1 405B"),
  ("mistralai/mistral-large", "Mistral Large"),
  ("mistralai/mistral-medium", "Mistral Medium"),
  ("mistralai/mistral-small", "Mistral Small"),
  ("qwen/qwen-2.5-72b-instruct", "Qwen 2.5 72B")]

/-- Map lookup `modelNames[key]`, empty string when absent (Go's two-valued
lookup collapsed to the empty-string sentinel the callers use). -/
def tableGet (key : String) : String :=
  (alookup modelNames key).getD ""

/-- The text after the last slash of `l`, the whole of `l` when it has none
(`modelID[strings.LastIndex(modelID, "/")+1:]`). -/
def afterLastSlash (l : List Char) : List Char :=
  (l.reverse.takeWhile (fun c => c ≠ '/')).reverse

/-- Go `lookupInMappings`: exact match, case-folded match, and both again on
the text after the last slash when there is one; empty string when all miss. -/
def lookupInMappings (modelID : String) : String :=
  if tableGet modelID ≠ "" then tableGet modelID
  else if tableGet (goToLower modelID) ≠ "" then tableGet (goToLower modelID)
  else if '/' ∈ modelID.data then
    let baseModel : String := ⟨afterLastSlash modelID.data⟩
    if tableGet baseModel ≠ "" then tableGet baseModel
    else tableGet (goToLower baseModel)
  else ""

/-- One row update of the Levenshtein dynamic program: walks `b` with the
previous row (`p0 :: p1 :: ps`) and the entry to the left (`c0`). -/
def levRowAux (ca : Char) : List Char → List Nat → Nat → List Nat
  | cb :: bs, p0 :: p1 :: ps, c0 =>
    let cost := if ca = cb then 0 else 1
    let c1 := min (p1 + 1) (min (c0 + 1) (p0 + cost))
    c1 :: levRowAux ca bs (p1 :: ps) c1
  | _, _, _ => []

/-- Outer loop of the Levenshtein dynamic program over the rows of `a`. -/
def levLoop : List Char → List Char → List Nat → Nat → List Nat
  | [], _, prev, _ => prev
  | ca :: as, b, prev, i => levLoop as b (i :: levRowAux ca b prev i) (i + 1)

/-- Go `levenshteinDistance`: edit distance between `a` and `b` (the Go code
walks bytes; characters coincide for the ASCII identifiers involved). -/
def levenshteinDistance (a b : String) : Nat :=
  match a.data, b.data with
  | [], bd => bd.length
  | ad, [] => ad.length
  | ad, bd => (levLoop ad bd (List.range (bd.length + 1)) 1).getLastD 0

/-- The fuzzy-match threshold constant of the `names` package. -/
def fuzzyMatchThreshold : Nat := 2

/-- Go `findBestMatch`: scan the synonym table keeping the entry of least
distance, starting from `fuzzyMatchThreshold + 1`, so an entry is picked
exactly when its distance is at most the threshold. -/
def findBestMatch (modelID : String) : String :=
  (modelNames.foldl
    (fun acc kv =>
      if levenshteinDistance modelID kv.1 < acc.1 then (levenshteinDistance modelID kv.1, kv.2)
      else acc)
    (fuzzyMatchThreshold + 1, "")).2

/-- Rewrite of the regex `(\d)-(\d)` to `$1.$2`, leftmost first and without
overlap (the regex engine resumes after each match). -/
def dashDotRewrite : List Char → List Char
  | [] => []
  | [a] => [a]
  | [a, b] => [a, b]
  | a :: b :: c :: rest =>
    if a.isDigit ∧ b = '-' ∧ c.isDigit then a :: '.' :: c :: dashDotRewrite rest
    else a :: dashDotRewrite (b :: c :: rest)

/-- Go `capitalizeWord`: upper-case the first character.  The source's
version-marker branch returns the same string as the general branch, so the
two collapse. -/
def capitalizeWord : List Char → List Char
  | [] => []
  | c :: rest => Char.toUpper c :: rest

/-- Go `formatModelName`: strip the provider prefix, turn separators into
spaces, dot the digit-dash-digit version patterns, collapse whitespace and
capitalize every word. -/
def formatModelName (modelID : String) : String :=
  let r0 := modelID.data
  let r1 := if '/' ∈ r0 then afterLastSlash r0 else r0
  let r2 := r1.map (fun c => if c = '_' then ' ' else c)
  let r3 := r2.map (fun c => if c = '/' then ' ' else c)
  let r4 := dashDotRewrite r3
  let r5 := r4.map (fun c => if c = '-' then ' ' else c)
  let r6 := joinSpace (goFields r5)
  ⟨joinSpace ((goFields r6).map capitalizeWord)⟩

/-- Go `GetDisplayName`: static lookup, then fuzzy match on the case-folded
identifier, then mechanical formatting. -/
def GetDisplayName (modelID : String) : String :=
  if lookupInMappings modelID ≠ "" then lookupInMappings modelID
  else if findBestMatch (goToLower modelID) ≠ "" then findBestMatch (goToLower modelID)
  else formatModelName modelID

end Names

namespace Apipie

/-- The APIpie model record (`Model` in `cmd/apipie/main.go`), with the nested
pricing struct flattened into its four leaf fields. -/
structure Model where
  id : String
  model : String
  route : String
  description : String
  maxTokens : Int
  maxResponseTokens : Int
  type : String
  subtype : String
  provider : String
  pool : String
  instructType : String
  quantization : String
  enabled : Int
  available : Int
  inputModalities : List String
  outputModalities : List String
  confirmedInputCost : String
  confirmedOutputCost : String
  advertisedInputCostPerToken : String
  advertisedOutputCostPerToken : String
  deriving DecidableEq, Inhabited

/-- The delimiter-joined metadata rendered by `hashModelMetadata` before
hashing: `fmt.Sprintf("%s|%s|%s|%s|%s|%s|%s|%s|%s|%s|%d", ...)` over the
differentiating fields, modality lists comma-joined. -/
def metadataString (m : Model) : String :=
  m.description ++ "|" ++ m.provider ++ "|" ++ m.route ++ "|" ++ m.pool ++ "|" ++
    m.subtype ++ "|" ++ m.instructType ++ "|" ++ m.quantization ++ "|" ++ m.model ++ "|" ++
    String.intercalate "," m.inputModalities ++ "|" ++
    String.intercalate "," m.outputModalities ++ "|" ++ toString m.maxTokens

/-- Go `hashModelMetadata`, parametrized by the digest `h` (SHA-256 rendered
as 64 hex characters in the source; theorems that need it assume only that
`h` has fixed output length). -/
def hashModelMetadata (h : String → String) (m : Model) : String :=
  h (metadataString m)

/-- Go `getModelCacheKey`: model id and metadata digest joined by a pipe. -/
def getModelCacheKey (h : String → String) (m : Model) : String :=
  m.id ++ "|" ++ hashModelMetadata h m

/-- The `display_name_cache` table: rows keyed by the composite primary key
`(model_id, description_hash)`. -/
abbrev DisplayTable := List ((String × String) × String)

/-- The `SELECT display_name ... WHERE model_id = ? AND description_hash = ?`
of `Cache.Get`. -/
def displayGet (t : DisplayTable) (id fp : String) : Option String :=
  alookup t (id, fp)

/-- The `INSERT OR REPLACE INTO display_name_cache` of `Cache.Set`. -/
def displaySet (t : DisplayTable) (id fp name : String) : DisplayTable :=
  aupsert t (id, fp) name

/-- Go `Cache.Get`: empty string when the composite key misses. -/
def cacheGet (h : String → String) (t : DisplayTable) (m : Model) : String :=
  (displayGet t m.id (hashModelMetadata h m)).getD ""

/-- Go `Cache.Set`. -/
def cacheSet (h : String → String) (t : DisplayTable) (m : Model) (name : String) :
    DisplayTable :=
  displaySet t m.id (hashModelMetadata h m) name

/-- Go `parseIndex`: `strconv.Atoi`, strictly positive, shifted to 0-based;
`-1` for anything else. -/
def parseIndex (s : String) : Int :=
  match goAtoi s with
  | some idx => if idx > 0 then idx - 1 else -1
  | none => -1

/-- The separator `"] ->"` of the generation-response line format. -/
def sepArrow : List Char := ']' :: ' ' :: '-' :: '>' :: []

/-- One line of `parseGroupNamesResponse`: trim, require the separator, parse
the index from the trimmed text before it (optional leading bracket removed),
and accept the trimmed name when the index is in range and the name is
non-empty, at most 60 characters and newline-free. -/
def processLine (h : String → String) (models : List Model)
    (acc : List (String × String)) (line0 : List Char) : List (String × String) :=
  let line := trimSpaceList line0
  match splitFirst sepArrow line with
  | none => acc
  | some (p0, p1) =>
    let indexStr := trimPre ('[' :: []) (trimSpaceList p0)
    let name := trimSpaceList p1
    let idx := parseIndex ⟨indexStr⟩
    if 0 ≤ idx ∧ idx < (models.length : Int) then
      let m := models.getD idx.toNat default
      if 0 < name.length ∧ name.length ≤ 60 ∧ (splitFirst ('\n' :: []) name).isSome = false then
        aupsert acc (getModelCacheKey h m) (⟨name⟩ : String)
      else acc
    else acc

/-- Go `parseGroupNamesResponse`: fold `processLine` over the newline-split
response; being a map write, a later accepted line overwrites an earlier one
with the same cache key. -/
def parseGroupNamesResponse (h : String → String) (response : String)
    (models : List Model) : List (String × String) :=
  (splitOnChar '\n' response.data).foldl (processLine h models) []

/-- Go `generateDisplayNamesForGroup`.  Everything up to and including the
HTTP call and response decoding is abstracted into the oracle `svc`, which
returns the message content of the first choice, or `none` on any failure
(missing API key, network error after retries, non-200 status, malformed
body, empty choices) — every failure path of the source returns `nil`. -/
def generateDisplayNamesForGroup (h : String → String)
    (svc : List Model → Option String) (models : List Model) :
    Option (List (String × String)) :=
  match svc models with
  | none => none
  | some content => some (parseGroupNamesResponse h ⟨trimSpaceList content.data⟩ models)

/-- The cache-probing loop at the top of `createDisplayNamesForGroup`: hits
are written to the result map, misses are collected in source order. -/
def cacheScanAux (h : String → String) (t : DisplayTable) :
    List Model → List (String × String) → List Model →
    List (String × String) × List Model
  | [], acc, unc => (acc, unc)
  | m :: ms, acc, unc =>
    if cacheGet h t m ≠ "" then
      cacheScanAux h t ms (aupsert acc (getModelCacheKey h m) (cacheGet h t m)) unc
    else cacheScanAux h t ms acc (unc ++ [m])

/-- The caching loop over the generated names: write each pair to the result
map and persist it for the first uncached model whose cache key matches. -/
def applyGenerated (h : String → String) :
    List (String × String) → DisplayTable → List Model → List (String × String) →
    List (String × String) × DisplayTable
  | r, t, _, [] => (r, t)
  | r, t, unc, (k, name) :: ps =>
    let t' :=
      match unc.find? (fun m => getModelCacheKey h m == k) with
      | some m => cacheSet h t m name
      | none => t
    applyGenerated h (aupsert r k name) t' unc ps

/-- The raw-identifier fallback loop: any uncached model whose cache key is
still absent from the result map falls back to its raw id, unpersisted. -/
def fallbackFill (h : String → String) :
    List (String × String) → List Model → List (String × String)
  | r, [] => r
  | r, m :: ms =>
    let r' :=
      if (alookup r (getModelCacheKey h m)).isSome then r
      else aupsert r (getModelCacheKey h m) m.id
    fallbackFill h r' ms

/-- Outcome of one `createDisplayNamesForGroup` run: the result map, the cache
after the run, and how many generation-service calls were made. -/
structure GroupResult where
  result : List (String × String)
  cache : DisplayTable
  genCalls : Nat
  deriving DecidableEq

/-- Go `createDisplayNamesForGroup`: probe the cache, return directly when
everything was cached, otherwise generate for the uncached models as one
batch, persist the accepted names, and fall back to raw ids for the rest. -/
def createDisplayNamesForGroup (h : String → String)
    (svc : List Model → Option String) (t : DisplayTable) (models : List Model) :
    GroupResult :=
  let scan := cacheScanAux h t models [] []
  let uncachedModels := scan.2
  if uncachedModels.isEmpty then ⟨scan.1, t, 0⟩
  else
    match generateDisplayNamesForGroup h svc uncachedModels with
    | some groupNames =>
      let rt := applyGenerated h scan.1 t uncachedModels groupNames
      ⟨fallbackFill h rt.1 uncachedModels, rt.2, 1⟩
    | none => ⟨fallbackFill h scan.1 uncachedModels, t, 1⟩

/-- Go `canReason`: the subtype field must mention `"reasoning"`. -/
def canReason (m : Model) : Bool :=
  if m.subtype ≠ "" then goContains m.subtype "reasoning" else false

/-- The static phrase table of `hasReasoningEfforts`. -/
def controllableReasoningIndicators : List String :=
  ["thinking tokens", "reasoning budget", "controllable reasoning",
   "thinking depth", "reasoning depth", "controllable depth",
   "thinking budget", "reasoning effort", "configurable reasoning",
   "adjustable reasoning"]

/-- The phrase-matching fallback of `hasReasoningEfforts` over the case-folded
description. -/
def phraseMatch (description : String) : Bool :=
  controllableReasoningIndicators.any (fun ind => goContains (goToLower description) ind)

/-- The `reasoning_effort_cache` table: rows keyed by the description digest. -/
abbrev ReasoningTable := List (String × Bool)

/-- Go `Cache.GetReasoningEffort`: miss on the empty description, else look
the digest up. -/
def getReasoningEffort (h : String → String) (t : ReasoningTable)
    (description : String) : Option Bool :=
  if description = "" then none else alookup t (h description)

/-- Go `Cache.SetReasoningEffort`: no-op on the empty description, else
insert-or-replace under the digest. -/
def setReasoningEffort (h : String → String) (t : ReasoningTable)
    (description : String) (b : Bool) : ReasoningTable :=
  if description = "" then t else aupsert t (h description) b

/-- Outcome of one `hasReasoningEfforts` run, with the effect counters the
frame claims are about. -/
structure ReasoningOutcome where
  result : Bool
  cache : ReasoningTable
  llmCalls : Nat
  cacheReads : Nat
  cacheWrites : Nat
  deriving DecidableEq

/-- Go `hasReasoningEfforts`.  `llm` abstracts `analyzeReasoningEffortsWithLLM`
(false on any failure path).  The two `model.Description != ""` blocks of the
source share one condition, so they appear as one branch: on a cache hit the
cached flag is returned as is; on a miss the LLM verdict is cached, a true
verdict is returned, and a false one falls through to phrase matching. -/
def hasReasoningEfforts (h : String → String) (llm : String → Bool)
    (t : ReasoningTable) (m : Model) : ReasoningOutcome :=
  if ¬ canReason m then ⟨false, t, 0, 0, 0⟩
  else if m.description ≠ "" then
    match getReasoningEffort h t m.description with
    | some hasEffort => ⟨hasEffort, t, 0, 1, 0⟩
    | none =>
      let result := llm m.description
      let t' := setReasoningEffort h t m.description result
      if result then ⟨true, t', 1, 1, 1⟩
      else if phraseMatch m.description then ⟨true, t', 1, 1, 1⟩
      else ⟨false, t', 1, 1, 1⟩
  else ⟨false, t, 0, 0, 0⟩

/-- What one attempt of `retryableHTTPRequest` observes: a transport error
from `client.Do`, or a response with its status code and body. -/
inductive AttemptResult where
  | netError (msg : String)
  | response (statusCode : Nat) (body : String)
  deriving DecidableEq

/-- Outcome of `retryableHTTPRequest`: the returned response or error, the
number of attempts made (calls of `client.Do`) and the total slept delay in
seconds. -/
structure RetryResult where
  outcome : Except String (Nat × String)
  attempts : Nat
  totalDelaySec : Nat

/-- The retry budget `maxRetries` of `retryableHTTPRequest`. -/
def maxRetries : Nat := 3

/-- The loop of `retryableHTTPRequest`, walking the attempt counters
`0, ..., maxRetries - 1`; the last two arguments accumulate slept seconds and
performed attempts.  The delay slept after a failed non-final attempt is
`baseDelay * (1 << attempt)` = `2 ^ attempt` seconds; the fall-through error
after the loop is unreachable because both failure kinds return on the last
attempt. -/
def retryLoop (oracle : Nat → AttemptResult) (operation : String) :
    List Nat → Nat → Nat → RetryResult
  | [], delay, attempts =>
    ⟨.error (operation ++ " max retries exceeded"), attempts, delay⟩
  | attempt :: rest, delay, attempts =>
    match oracle attempt with
    | .netError msg =>
      if attempt = maxRetries - 1 then
        ⟨.error (operation ++ (" failed after " ++ toString maxRetries ++ " retries: ") ++ msg),
          attempts + 1, delay⟩
      else retryLoop oracle operation rest (delay + 2 ^ attempt) (attempts + 1)
    | .response statusCode body =>
      if statusCode = 200 ∨ statusCode ≠ 502 then ⟨.ok (statusCode, body), attempts + 1, delay⟩
      else if attempt = maxRetries - 1 then
        ⟨.error (operation ++ (" returned status " ++ toString statusCode ++ " after " ++
            toString maxRetries ++ " retries: ") ++ body),
          attempts + 1, delay⟩
      else retryLoop oracle operation rest (delay + 2 ^ attempt) (attempts + 1)

/-- Go `retryableHTTPRequest` over the attempt oracle. -/
def retryableHTTPRequest (oracle : Nat → AttemptResult) (operation : String) : RetryResult :=
  retryLoop oracle operation (List.range maxRetries) 0 0

end Apipie

/-! ## Concrete instances used by counterexamples and witnesses -/

/-- A stand-in digest with the output length of SHA-256 hex (64 characters). -/
def hashConst : String → String :=
  fun _ => (List.replicate 64 'a').asString

/-- A sample APIpie record. -/
def sampleA : Apipie.Model where
  id := "m"
  model := "base"
  route := "r"
  description := "dA"
  maxTokens := 1000
  maxResponseTokens := 0
  type := "llm"
  subtype := ""
  provider := "pA"
  pool := ""
  instructType := ""
  quantization := ""
  enabled := 1
  available := 1
  inputModalities := ["text"]
  outputModalities := ["text"]
  confirmedInputCost := ""
  confirmedOutputCost := ""
  advertisedInputCostPerToken := ""
  advertisedOutputCostPerToken := ""

/-- A second record in the same group, differing in its description. -/
def sampleB : Apipie.Model :=
  { sampleA with description := "dB" }

/-- A reasoning-capable record whose description carries the controllable
phrase `reasoning effort`. -/
def samplePhrase : Apipie.Model :=
  { sampleA with subtype := "reasoning", description := "Model with adjustable reasoning effort levels." }

/-- A record whose input modalities are the two-element list `["a", "b"]`. -/
def sampleJoinA : Apipie.Model :=
  { sampleA with inputModalities := ["a", "b"] }

/-- A record whose input modalities are the one-element list `["a,b"]`, with
the same comma-join as `sampleJoinA`. -/
def sampleJoinB : Apipie.Model :=
  { sampleA with inputModalities := ["a,b"] }

/-- A display-name cache holding a name for `sampleA` under the stand-in
digest. -/
def sampleCache : Apipie.DisplayTable :=
  Apipie.cacheSet hashConst [] sampleA "Cached A"

/-- An endpoint answering 502 on every attempt. -/
def oracle502 : Nat → Apipie.AttemptResult :=
  fun _ => .response 502 "bad gateway"

/-- An endpoint answering 200 at once. -/
def oracleOK : Nat → Apipie.AttemptResult :=
  fun _ => .response 200 "models"

/-- An endpoint failing at the network level once, then answering 200. -/
def oracleFlaky : Nat → Apipie.AttemptResult :=
  fun i => if i = 0 then .netError "connection refused" else .response 200 "models"

/-! ## Association-list lemmas -/

theorem alookup_mem {κ ν : Type} [DecidableEq κ] :
    ∀ (t : List (κ × ν)) (k : κ) (v : ν), alookup t k = some v → (k, v) ∈ t := by
  intro t
  induction t with
  | nil => intro k v hv; cases hv
  | cons hd tl ih =>
    intro k v hv
    obtain ⟨k0, v0⟩ := hd
    by_cases hk : k0 = k
    · subst hk
      rw [alookup, if_pos rfl] at hv
      cases hv
      exact List.mem_cons_self ..
    · rw [alookup, if_neg hk] at hv
      exact List.mem_cons_of_mem _ (ih k v hv)

theorem alookup_aupsert_self {κ ν : Type} [DecidableEq κ] (t : List (κ × ν)) (k : κ) (v : ν) :
    alookup (aupsert t k v) k = some v := by
  simp [alookup, aupsert]

theorem alookup_filter_ne {κ ν : Type} [DecidableEq κ] (k q : κ) (hne : q ≠ k) :
    ∀ t : List (κ × ν), alookup (t.filter (fun p => p.1 ≠ k)) q = alookup t q := by
  intro t
  induction t with
  | nil => rfl
  | cons hd tl ih =>
    obtain ⟨k0, v0⟩ := hd
    by_cases h0 : k0 = k
    · subst h0
      have : q ≠ k0 := hne
      simp only [List.filter, alookup]
      rw [if_neg (fun hh => this hh.symm)]
      simpa using ih
    · simp only [List.filter, alookup]
      rw [decide_eq_true (by exact h0 : (k0 : κ) ≠ k)]
      simp only [alookup]
      by_cases hq : k0 = q
      · rw [if_pos hq, if_pos hq]
      · rw [if_neg hq, if_neg hq]
        exact ih

theorem alookup_aupsert_ne {κ ν : Type} [DecidableEq κ] (t : List (κ × ν)) (k q : κ) (v : ν)
    (hne : q ≠ k) : alookup (aupsert t k v) q = alookup t q := by
  simp only [aupsert, alookup]
  rw [if_neg (fun hh => hne hh.symm)]
  exact alookup_filter_ne k q hne t

theorem mem_aupsert {κ ν : Type} [DecidableEq κ] (t : List (κ × ν)) (k0 : κ) (v0 : ν)
    (kv : κ × ν) (hm : kv ∈ aupsert t k0 v0) : kv = (k0, v0) ∨ kv ∈ t := by
  rcases List.mem_cons.1 hm with h | h
  · exact Or.inl h
  · exact Or.inr (List.mem_of_mem_filter h)

/-! ## C6: display-name cache round trip -/

/-- C6: after `setDisplayName(id, fp, name)`, `getDisplayName(id, fp)` returns
`name`; a fingerprint `fp' ≠ fp` of the same id that was not cached before the
write is still not found after it; and a second write at the same `(id, fp)`
overwrites the first (upsert, last writer wins). -/
theorem cache_display_roundtrip :
    (∀ (t : Apipie.DisplayTable) (id fp name : String),
      Apipie.displayGet (Apipie.displaySet t id fp name) id fp = some name) ∧
    (∀ (t : Apipie.DisplayTable) (id fp fp' name : String), fp' ≠ fp →
      Apipie.displayGet t id fp' = none →
      Apipie.displayGet (Apipie.displaySet t id fp name) id fp' = none) ∧
    (∀ (t : Apipie.DisplayTable) (id fp name1 name2 : String),
      Apipie.displayGet (Apipie.displaySet (Apipie.displaySet t id fp name1) id fp name2) id fp =
        some name2) := by
  refine ⟨fun t id fp name => alookup_aupsert_self .., fun t id fp fp' name hne hmiss => ?_,
    fun t id fp name1 name2 => alookup_aupsert_self ..⟩
  rw [Apipie.displayGet, Apipie.displaySet,
    alookup_aupsert_ne _ _ _ _ (fun hh => hne (congrArg Prod.snd hh))]
  exact hmiss

/-- Witness for C6 at concrete keys and names. -/
theorem cache_display_roundtrip_witness :
    Apipie.displayGet (Apipie.displaySet [] "m" "f1" "Name A") "m" "f1" = some "Name A" ∧
    Apipie.displayGet (Apipie.displaySet [] "m" "f1" "Name A") "m" "f2" = none ∧
    Apipie.displayGet (Apipie.displaySet (Apipie.displaySet [] "m" "f1" "Name A") "m" "f1" "Name B")
      "m" "f1" = some "Name B" :=
  ⟨cache_display_roundtrip.1 [] "m" "f1" "Name A",
   cache_display_roundtrip.2.1 [] "m" "f1" "f2" "Name A" (by decide) rfl,
   cache_display_roundtrip.2.2 [] "m" "f1" "Name A" "Name B"⟩

/-! ## C2: retrying transport -/

theorem retryLoop_attempts_le (oracle : Nat → Apipie.AttemptResult) (op : String) :
    ∀ (l : List Nat) (d a : Nat), (Apipie.retryLoop oracle op l d a).attempts ≤ a + l.length := by
  intro l
  induction l with
  | nil => intro d a; simp [Apipie.retryLoop]
  | cons att rest ih =>
    intro d a
    cases horacle : oracle att with
    | netError msg =>
      simp only [Apipie.retryLoop, horacle, List.length_cons]
      split_ifs
      · dsimp only; omega
      · have := ih (d + 2 ^ att) (a + 1); omega
    | response st body =>
      simp only [Apipie.retryLoop, horacle, List.length_cons]
      split_ifs
      · dsimp only; omega
      · dsimp only; omega
      · have := ih (d + 2 ^ att) (a + 1); omega

/-- C2: the transport makes at most 3 attempts; a response with any status
other than 502 is returned immediately (first attempt, no delay); one network
error followed by a good response costs one retry with a 1s backoff; and an
endpoint answering 502 on every attempt yields a terminal error after exactly
3 attempts and 1s + 2s = 3s of cumulative delay, the error naming the
operation, the attempt count and the last response body. -/
theorem retry_transport_spec :
    (∀ (oracle : Nat → Apipie.AttemptResult) (op : String),
      (Apipie.retryableHTTPRequest oracle op).attempts ≤ Apipie.maxRetries) ∧
    (∀ (oracle : Nat → Apipie.AttemptResult) (op : String) (st : Nat) (body : String),
      oracle 0 = .response st body → st ≠ 502 →
      Apipie.retryableHTTPRequest oracle op = ⟨.ok (st, body), 1, 0⟩) ∧
    (∀ (oracle : Nat → Apipie.AttemptResult) (op msg : String) (st : Nat) (body : String),
      oracle 0 = .netError msg → oracle 1 = .response st body → st ≠ 502 →
      Apipie.retryableHTTPRequest oracle op = ⟨.ok (st, body), 2, 1⟩) ∧
    (∀ (oracle : Nat → Apipie.AttemptResult) (op body : String),
      (∀ i, oracle i = .response 502 body) →
      Apipie.retryableHTTPRequest oracle op =
        ⟨.error (op ++ " returned status 502 after 3 retries: " ++ body), 3, 3⟩) := by
  refine ⟨fun oracle op => ?_, fun oracle op st body h0 hne => ?_,
    fun oracle op msg st body h0 h1 hne => ?_, fun oracle op body h => ?_⟩
  · have := retryLoop_attempts_le oracle op (List.range Apipie.maxRetries) 0 0
    simpa [Apipie.retryableHTTPRequest] using this
  · show Apipie.retryLoop oracle op [0, 1, 2] 0 0 = _
    simp [Apipie.retryLoop, h0, hne]
  · show Apipie.retryLoop oracle op [0, 1, 2] 0 0 = _
    simp [Apipie.retryLoop, h0, h1, hne, Apipie.maxRetries]
  · show Apipie.retryLoop oracle op [0, 1, 2] 0 0 = _
    have hmsg : (" returned status " ++ toString (502 : Nat) ++ " after " ++
        toString (3 : Nat) ++ " retries: " : String) = " returned status 502 after 3 retries: " := by
      decide
    simp [Apipie.retryLoop, h, Apipie.maxRetries, ← hmsg]

/-- Witness for C2 at the three concrete endpoints. -/
theorem retry_transport_spec_witness :
    (Apipie.retryableHTTPRequest oracle502 "Model fetch").attempts ≤ Apipie.maxRetries ∧
    Apipie.retryableHTTPRequest oracleOK "Model fetch" = ⟨.ok (200, "models"), 1, 0⟩ ∧
    Apipie.retryableHTTPRequest oracleFlaky "Model fetch" = ⟨.ok (200, "models"), 2, 1⟩ ∧
    Apipie.retryableHTTPRequest oracle502 "Model fetch" =
      ⟨.error ("Model fetch" ++ " returned status 502 after 3 retries: " ++ "bad gateway"), 3, 3⟩ :=
  ⟨retry_transport_spec.1 oracle502 "Model fetch",
   retry_transport_spec.2.1 oracleOK "Model fetch" 200 "models" rfl (by decide),
   retry_transport_spec.2.2.1 oracleFlaky "Model fetch" "connection refused" 200 "models"
     rfl rfl (by decide),
   retry_transport_spec.2.2.2 oracle502 "Model fetch" "bad gateway" (fun _ => rfl)⟩

/-! ## C9 and C10: reasoning-capability resolution -/

/-- C9: a model whose subtype does not mention `"reasoning"` makes
`hasReasoningEfforts` return false at once — no reasoning-cache read or
write, no generation-service call, cache unchanged. -/
theorem reasoning_skips_non_reasoning_subtype :
    ∀ (h : String → String) (llm : String → Bool) (t : Apipie.ReasoningTable)
      (m : Apipie.Model), goContains m.subtype "reasoning" = false →
      Apipie.hasReasoningEfforts h llm t m = ⟨false, t, 0, 0, 0⟩ := by
  intro h llm t m hc
  have hcr : Apipie.canReason m = false := by
    rw [Apipie.canReason]
    split
    · exact hc
    · rfl
  rw [Apipie.hasReasoningEfforts, if_pos]
  rw [hcr]
  simp

/-- Witness for C9: `sampleA` has the empty subtype. -/
theorem reasoning_skips_non_reasoning_subtype_witness :
    Apipie.hasReasoningEfforts hashConst (fun _ => true) [] sampleA = ⟨false, [], 0, 0, 0⟩ :=
  reasoning_skips_non_reasoning_subtype hashConst (fun _ => true) [] sampleA (by decide)

/-- C10: for a reasoning-capable model with a non-empty description, a
reasoning-cache hit is returned as is (one cache read, no write, no
generation call), so the phrase fallback runs only on a miss: on `samplePhrase`
(whose description contains the phrase `reasoning effort`) an uncached run
with a failing analysis service returns true through the phrase fallback,
while a cached false returns false. -/
theorem reasoning_cache_short_circuit :
    (∀ (h : String → String) (llm : String → Bool) (t : Apipie.ReasoningTable)
       (m : Apipie.Model) (b : Bool),
      Apipie.canReason m = true → m.description ≠ "" →
      Apipie.getReasoningEffort h t m.description = some b →
      Apipie.hasReasoningEfforts h llm t m = ⟨b, t, 0, 1, 0⟩) ∧
    (∀ h : String → String,
      Apipie.hasReasoningEfforts h (fun _ => false) [] samplePhrase =
        ⟨true, [(h samplePhrase.description, false)], 1, 1, 1⟩) ∧
    (∀ h : String → String,
      Apipie.hasReasoningEfforts h (fun _ => false)
          [(h samplePhrase.description, false)] samplePhrase =
        ⟨false, [(h samplePhrase.description, false)], 0, 1, 0⟩) := by
  refine ⟨fun h llm t m b hcr hdesc hhit => ?_, fun h => ?_, fun h => ?_⟩
  · rw [Apipie.hasReasoningEfforts,
      if_neg (show ¬ ¬ (Apipie.canReason m = true) from fun hn => hn hcr),
      if_pos hdesc, hhit]
  · have hpm : Apipie.phraseMatch samplePhrase.description = true := by decide
    rw [Apipie.hasReasoningEfforts,
      if_neg (show ¬ ¬ (Apipie.canReason samplePhrase = true) by decide),
      if_pos (show samplePhrase.description ≠ "" by decide)]
    have hmiss : Apipie.getReasoningEffort h [] samplePhrase.description = none := by
      unfold Apipie.getReasoningEffort
      rw [if_neg (show ¬ (samplePhrase.description = "") by decide)]
      rfl
    rw [hmiss]
    simp [hpm, Apipie.setReasoningEffort, aupsert,
      show ¬ (samplePhrase.description = "") by decide]
  · rw [Apipie.hasReasoningEfforts,
      if_neg (show ¬ ¬ (Apipie.canReason samplePhrase = true) by decide),
      if_pos (show samplePhrase.description ≠ "" by decide)]
    have hhit : Apipie.getReasoningEffort h [(h samplePhrase.description, false)]
        samplePhrase.description = some false := by
      unfold Apipie.getReasoningEffort
      rw [if_neg (show ¬ (samplePhrase.description = "") by decide)]
      exact alookup_aupsert_self [] _ _
    rw [hhit]

/-- Witness for C10 at the stand-in digest and a concrete cache. -/
theorem reasoning_cache_short_circuit_witness :
    Apipie.hasReasoningEfforts hashConst (fun _ => true)
        [(hashConst samplePhrase.description, false)] samplePhrase =
      ⟨false, [(hashConst samplePhrase.description, false)], 0, 1, 0⟩ ∧
    Apipie.hasReasoningEfforts hashConst (fun _ => false) [] samplePhrase =
      ⟨true, [(hashConst samplePhrase.description, false)], 1, 1, 1⟩ :=
  ⟨reasoning_cache_short_circuit.1 hashConst (fun _ => true)
      [(hashConst samplePhrase.description, false)] samplePhrase false
      (by decide) (by decide) (by decide),
   reasoning_cache_short_circuit.2.1 hashConst⟩

/-! ## C1: resolver totality and non-emptiness -/

/-- C1 (amended): `GetDisplayName` is total by construction and returns a
non-empty name whenever the mechanical-formatting fallback of the identifier
is non-empty (the other two stages return non-empty names or defer); for
identifiers made only of separator characters all three stages can come up
empty. -/
theorem getDisplayName_nonempty_of_format_nonempty :
    ∀ modelID : String, Names.formatModelName modelID ≠ "" →
      Names.GetDisplayName modelID ≠ "" := by
  intro s hfmt
  unfold Names.GetDisplayName
  split_ifs with h1 h2
  · exact h1
  · exact h2
  · exact hfmt

/-- Witness for the amended C1 at a plain identifier. -/
theorem getDisplayName_nonempty_witness :
    Names.formatModelName "foo" ≠ "" ∧ Names.GetDisplayName "foo" ≠ "" :=
  ⟨by decide, getDisplayName_nonempty_of_format_nonempty "foo" (by decide)⟩

/-- Counterexample to C1 as stated: on the separator-only identifier `"---"`
the synonym lookup misses, every table key is at Levenshtein distance 3 or
more, and mechanical formatting erases everything, so the resolver returns
the empty string. -/
theorem getDisplayName_empty_on_separators :
    Names.GetDisplayName "---" = "" := by
  decide

/-! ## C4: fuzzy-match threshold -/

theorem fbm_fold_no_update (id : String) :
    ∀ (l : List (String × String)) (acc : Nat × String),
      (∀ kv ∈ l, acc.1 ≤ Names.levenshteinDistance id kv.1) →
      l.foldl
        (fun acc kv =>
          if Names.levenshteinDistance id kv.1 < acc.1 then
            (Names.levenshteinDistance id kv.1, kv.2)
          else acc) acc = acc := by
  intro l
  induction l with
  | nil => intro acc _; rfl
  | cons kv0 tl ih =>
    intro acc hle
    rw [List.foldl_cons, if_neg (Nat.not_lt.2 (hle kv0 (List.mem_cons_self ..)))]
    exact ih acc (fun kv hm => hle kv (List.mem_cons_of_mem _ hm))

theorem fbm_fold_keep (id : String) :
    ∀ (l : List (String × String)) (acc : Nat × String),
      (∀ kv ∈ l, kv.2 ≠ "") → acc.2 ≠ "" →
      (l.foldl
        (fun acc kv =>
          if Names.levenshteinDistance id kv.1 < acc.1 then
            (Names.levenshteinDistance id kv.1, kv.2)
          else acc) acc).2 ≠ "" := by
  intro l
  induction l with
  | nil => intro acc _ hacc; exact hacc
  | cons kv0 tl ih =>
    intro acc hne hacc
    rw [List.foldl_cons]
    by_cases hc : Names.levenshteinDistance id kv0.1 < acc.1
    · rw [if_pos hc]
      exact ih _ (fun kv hm => hne kv (List.mem_cons_of_mem _ hm))
        (hne kv0 (List.mem_cons_self ..))
    · rw [if_neg hc]
      exact ih acc (fun kv hm => hne kv (List.mem_cons_of_mem _ hm)) hacc

theorem fbm_fold_hit (id : String) :
    ∀ (l : List (String × String)) (acc : Nat × String),
      (∀ kv ∈ l, kv.2 ≠ "") →
      (∃ kv ∈ l, Names.levenshteinDistance id kv.1 < acc.1) →
      (l.foldl
        (fun acc kv =>
          if Names.levenshteinDistance id kv.1 < acc.1 then
            (Names.levenshteinDistance id kv.1, kv.2)
          else acc) acc).2 ≠ "" := by
  intro l
  induction l with
  | nil => intro acc _ hex; exact absurd hex (by simp)
  | cons kv0 tl ih =>
    intro acc hne hex
    rw [List.foldl_cons]
    by_cases hc : Names.levenshteinDistance id kv0.1 < acc.1
    · rw [if_pos hc]
      exact fbm_fold_keep id tl _ (fun kv hm => hne kv (List.mem_cons_of_mem _ hm))
        (hne kv0 (List.mem_cons_self ..))
    · rw [if_neg hc]
      obtain ⟨kv, hm, hlt⟩ := hex
      rcases List.mem_cons.1 hm with rfl | hm'
      · exact absurd hlt hc
      · exact ih acc (fun kv hm => hne kv (List.mem_cons_of_mem _ hm)) ⟨kv, hm', hlt⟩

/-- C4 (amended): the fuzzy step returns a synonym-table name exactly when
some table key is within Levenshtein distance `fuzzyMatchThreshold` = 2 of
the case-folded input (strictly below 3, not strictly below 2); when every
key is at distance 3 or more it yields nothing, and with the lookup stage
also empty, resolution falls through to mechanical formatting. -/
theorem fuzzy_threshold_behavior :
    (∀ id : String,
      (∀ kv ∈ Names.modelNames,
        Names.fuzzyMatchThreshold < Names.levenshteinDistance id kv.1) →
      Names.findBestMatch id = "") ∧
    (∀ id : String,
      (∃ kv ∈ Names.modelNames,
        Names.levenshteinDistance id kv.1 ≤ Names.fuzzyMatchThreshold) →
      Names.findBestMatch id ≠ "") ∧
    (∀ id : String, Names.lookupInMappings id = "" →
      Names.findBestMatch (goToLower id) = "" →
      Names.GetDisplayName id = Names.formatModelName id) := by
  have hnames : ∀ kv ∈ Names.modelNames, kv.2 ≠ "" := by decide
  refine ⟨fun id hfar => ?_, fun id hnear => ?_, fun id hl hf => ?_⟩
  · unfold Names.findBestMatch
    rw [fbm_fold_no_update id Names.modelNames (Names.fuzzyMatchThreshold + 1, "")
      (fun kv hm => Nat.succ_le_of_lt (hfar kv hm))]
  · unfold Names.findBestMatch
    obtain ⟨kv, hm, hle⟩ := hnear
    refine fbm_fold_hit id Names.modelNames _ hnames ⟨kv, hm, ?_⟩
    have : Names.fuzzyMatchThreshold = 2 := rfl
    omega
  · unfold Names.GetDisplayName
    split_ifs with h1 h2
    · exact absurd hl h1
    · exact absurd hf h2
    · rfl

/-- Witness for the amended C4: a far identifier misses, an exact table key
hits, and with both early stages empty the formatting fallback is returned. -/
theorem fuzzy_threshold_behavior_witness :
    Names.findBestMatch "zzzzzzzzzzzz" = "" ∧ Names.findBestMatch "gpt-5" ≠ "" ∧
    Names.GetDisplayName "---" = Names.formatModelName "---" :=
  ⟨fuzzy_threshold_behavior.1 "zzzzzzzzzzzz" (by decide),
   fuzzy_threshold_behavior.2.1 "gpt-5" ⟨("gpt-5", "GPT-5"), by decide, by decide⟩,
   fuzzy_threshold_behavior.2.2 "---" (by decide) (by decide)⟩

/-- Counterexample to C4 as stated: every table key is at distance 2 or more
from `"command-r"` (so a strictly-below-2 threshold would yield nothing), yet
the fuzzy match returns `"Command"`, the name of the key `"command"` at
distance exactly 2. -/
theorem fuzzy_match_at_distance_two :
    (∀ kv ∈ Names.modelNames, 2 ≤ Names.levenshteinDistance "command-r" kv.1) ∧
    Names.findBestMatch "command-r" = "Command" := by
  exact ⟨by decide, by decide⟩

/-! ## Decimal rendering is injective (needed for the context-length field of
the fingerprint) -/

theorem digitChar_decode : ∀ k : Nat, k < 10 → (Nat.digitChar k).toNat - 48 = k := by
  decide

theorem digitChar_ne_minus : ∀ k : Nat, k < 10 → Nat.digitChar k ≠ '-' := by
  decide

theorem toDigitsCore_foldl :
    ∀ (f n : Nat) (ds : List Char), n ≤ f →
      (Nat.toDigitsCore 10 f n ds).foldl (fun a c => a * 10 + (c.toNat - 48)) 0 =
        ds.foldl (fun a c => a * 10 + (c.toNat - 48)) n := by
  intro f
  induction f with
  | zero =>
    intro n ds hn
    have hz : n = 0 := Nat.le_zero.1 hn
    subst hz
    rfl
  | succ f ih =>
    intro n ds hn
    by_cases hz : n / 10 = 0
    · simp only [Nat.toDigitsCore, hz, if_pos]
      rw [List.foldl_cons]
      have hm : n % 10 < 10 := by omega
      rw [digitChar_decode _ hm]
      congr 1
      omega
    · simp only [Nat.toDigitsCore, hz, if_neg, if_false]
      rw [ih (n / 10) _ (by omega)]
      rw [List.foldl_cons]
      have hm : n % 10 < 10 := by omega
      rw [digitChar_decode _ hm]
      congr 1
      omega

theorem natRepr_inj : ∀ m n : Nat, Nat.repr m = Nat.repr n → m = n := by
  intro m n h
  have hd : Nat.toDigits 10 m = Nat.toDigits 10 n := congrArg String.data h
  have e1 : (Nat.toDigits 10 m).foldl (fun a c => a * 10 + (c.toNat - 48)) 0 = m :=
    toDigitsCore_foldl (m + 1) m [] (Nat.le_succ m)
  have e2 : (Nat.toDigits 10 n).foldl (fun a c => a * 10 + (c.toNat - 48)) 0 = n :=
    toDigitsCore_foldl (n + 1) n [] (Nat.le_succ n)
  rw [← e1, hd, e2]

theorem mem_toDigitsCore :
    ∀ (f n : Nat) (ds : List Char) (c : Char), c ∈ Nat.toDigitsCore 10 f n ds →
      c ∈ ds ∨ ∃ k, k < 10 ∧ c = Nat.digitChar k := by
  intro f
  induction f with
  | zero => intro n ds c hc; exact Or.inl hc
  | succ f ih =>
    intro n ds c hc
    by_cases hz : n / 10 = 0
    · simp only [Nat.toDigitsCore, hz, if_pos] at hc
      rcases List.mem_cons.1 hc with rfl | hm
      · exact Or.inr ⟨n % 10, by omega, rfl⟩
      · exact Or.inl hm
    · simp only [Nat.toDigitsCore, hz, if_neg, if_false] at hc
      rcases ih (n / 10) _ c hc with hm | hdig
      · rcases List.mem_cons.1 hm with rfl | hm'
        · exact Or.inr ⟨n % 10, by omega, rfl⟩
        · exact Or.inl hm'
      · exact Or.inr hdig

theorem natRepr_no_minus (m : Nat) : '-' ∉ (Nat.repr m).data := by
  intro hmem
  rcases mem_toDigitsCore (m + 1) m [] '-' hmem with hc | ⟨k, hk, hck⟩
  · cases hc
  · exact digitChar_ne_minus k hk hck.symm

theorem intToString_inj : ∀ a b : Int, toString a = toString b → a = b := by
  intro a b h
  cases a with
  | ofNat m =>
    cases b with
    | ofNat n => exact congrArg Int.ofNat (natRepr_inj m n h)
    | negSucc n =>
      exfalso
      have h' : Nat.repr m = "-" ++ Nat.repr (n + 1) := h
      apply natRepr_no_minus m
      rw [h', String.data_append]
      exact List.mem_append_left _ (by decide)
  | negSucc m =>
    cases b with
    | ofNat n =>
      exfalso
      have h' : "-" ++ Nat.repr (m + 1) = Nat.repr n := h
      apply natRepr_no_minus n
      rw [← h', String.data_append]
      exact List.mem_append_left _ (by decide)
    | negSucc n =>
      have h' : ("-" ++ Nat.repr (m + 1)).data = ("-" ++ Nat.repr (n + 1)).data :=
        congrArg String.data h
      rw [String.data_append, String.data_append] at h'
      have h2 : Nat.repr (m + 1) = Nat.repr (n + 1) :=
        String.ext (List.append_cancel_left h')
      have h3 := natRepr_inj _ _ h2
      exact congrArg Int.negSucc (by omega)

/-! ## C3: content fingerprint -/

theorem metadataString_data (m : Apipie.Model) :
    (Apipie.metadataString m).data =
      m.description.data ++ ("|".data ++ (m.provider.data ++ ("|".data ++
        (m.route.data ++ ("|".data ++ (m.pool.data ++ ("|".data ++
        (m.subtype.data ++ ("|".data ++ (m.instructType.data ++ ("|".data ++
        (m.quantization.data ++ ("|".data ++ (m.model.data ++ ("|".data ++
        ((String.intercalate "," m.inputModalities).data ++ ("|".data ++
        ((String.intercalate "," m.outputModalities).data ++ ("|".data ++
        (toString m.maxTokens).data))))))))))))))))))) := by
  simp [Apipie.metadataString, List.append_assoc]

/-- C3 (amended): the fingerprint input is deterministic in the
differentiating fields and ignores the non-tracked ones; changing exactly one
scalar differentiating field, or the context length, changes the hashed
metadata string (hence the fingerprint, barring SHA-256 collisions); modality
lists enter only through their comma-join, so a list change alters the
fingerprint exactly when the join changes. -/
theorem fingerprint_fields_spec :
    (∀ (h : String → String) (m1 m2 : Apipie.Model),
      m1.description = m2.description → m1.provider = m2.provider →
      m1.route = m2.route → m1.pool = m2.pool → m1.subtype = m2.subtype →
      m1.instructType = m2.instructType → m1.quantization = m2.quantization →
      m1.model = m2.model → m1.inputModalities = m2.inputModalities →
      m1.outputModalities = m2.outputModalities → m1.maxTokens = m2.maxTokens →
      Apipie.hashModelMetadata h m1 = Apipie.hashModelMetadata h m2) ∧
    (∀ (h : String → String) (m : Apipie.Model) (a b c : Int) (d e f g : String),
      Apipie.hashModelMetadata h
        { m with maxResponseTokens := a, enabled := b, available := c,
                 confirmedInputCost := d, confirmedOutputCost := e,
                 advertisedInputCostPerToken := f, advertisedOutputCostPerToken := g } =
        Apipie.hashModelMetadata h m) ∧
    (∀ (m : Apipie.Model) (x : String), x ≠ m.description →
      Apipie.metadataString { m with description := x } ≠ Apipie.metadataString m) ∧
    (∀ (m : Apipie.Model) (x : String), x ≠ m.provider →
      Apipie.metadataString { m with provider := x } ≠ Apipie.metadataString m) ∧
    (∀ (m : Apipie.Model) (x : String), x ≠ m.route →
      Apipie.metadataString { m with route := x } ≠ Apipie.metadataString m) ∧
    (∀ (m : Apipie.Model) (x : String), x ≠ m.pool →
      Apipie.metadataString { m with pool := x } ≠ Apipie.metadataString m) ∧
    (∀ (m : Apipie.Model) (x : String), x ≠ m.subtype →
      Apipie.metadataString { m with subtype := x } ≠ Apipie.metadataString m) ∧
    (∀ (m : Apipie.Model) (x : String), x ≠ m.instructType →
      Apipie.metadataString { m with instructType := x } ≠ Apipie.metadataString m) ∧
    (∀ (m : Apipie.Model) (x : String), x ≠ m.quantization →
      Apipie.metadataString { m with quantization := x } ≠ Apipie.metadataString m) ∧
    (∀ (m : Apipie.Model) (x : String), x ≠ m.model →
      Apipie.metadataString { m with model := x } ≠ Apipie.metadataString m) ∧
    (∀ (m : Apipie.Model) (l : List String),
      String.intercalate "," l ≠ String.intercalate "," m.inputModalities →
      Apipie.metadataString { m with inputModalities := l } ≠ Apipie.metadataString m) ∧
    (∀ (m : Apipie.Model) (l : List String),
      String.intercalate "," l ≠ String.intercalate "," m.outputModalities →
      Apipie.metadataString { m with outputModalities := l } ≠ Apipie.metadataString m) ∧
    (∀ (m : Apipie.Model) (n : Int), n ≠ m.maxTokens →
      Apipie.metadataString { m with maxTokens := n } ≠ Apipie.metadataString m) := by
  refine ⟨?_, ?_, ?_, ?_, ?_, ?_, ?_, ?_, ?_, ?_, ?_, ?_, ?_⟩
  · intro h m1 m2 hdesc hprov hroute hpool hsub hinst hquant hmodel hin hout hmax
    refine congrArg h ?_
    unfold Apipie.metadataString
    rw [hdesc, hprov, hroute, hpool, hsub, hinst, hquant, hmodel, hin, hout, hmax]
  · intro h m a b c d e f g
    rfl
  · intro m x hx hc
    have h := congrArg String.data hc
    rw [metadataString_data, metadataString_data] at h
    exact hx (String.ext (List.append_cancel_right h))
  · intro m x hx hc
    have h := congrArg String.data hc
    rw [metadataString_data, metadataString_data] at h
    iterate 2 replace h := List.append_cancel_left h
    exact hx (String.ext (List.append_cancel_right h))
  · intro m x hx hc
    have h := congrArg String.data hc
    rw [metadataString_data, metadataString_data] at h
    iterate 4 replace h := List.append_cancel_left h
    exact hx (String.ext (List.append_cancel_right h))
  · intro m x hx hc
    have h := congrArg String.data hc
    rw [metadataString_data, metadataString_data] at h
    iterate 6 replace h := List.append_cancel_left h
    exact hx (String.ext (List.append_cancel_right h))
  · intro m x hx hc
    have h := congrArg String.data hc
    rw [metadataString_data, metadataString_data] at h
    iterate 8 replace h := List.append_cancel_left h
    exact hx (String.ext (List.append_cancel_right h))
  · intro m x hx hc
    have h := congrArg String.data hc
    rw [metadataString_data, metadataString_data] at h
    iterate 10 replace h := List.append_cancel_left h
    exact hx (String.ext (List.append_cancel_right h))
  · intro m x hx hc
    have h := congrArg String.data hc
    rw [metadataString_data, metadataString_data] at h
    iterate 12 replace h := List.append_cancel_left h
    exact hx (String.ext (List.append_cancel_right h))
  · intro m x hx hc
    have h := congrArg String.data hc
    rw [metadataString_data, metadataString_data] at h
    iterate 14 replace h := List.append_cancel_left h
    exact hx (String.ext (List.append_cancel_right h))
  · intro m l hx hc
    have h := congrArg String.data hc
    rw [metadataString_data, metadataString_data] at h
    iterate 16 replace h := List.append_cancel_left h
    exact hx (String.ext (List.append_cancel_right h))
  · intro m l hx hc
    have h := congrArg String.data hc
    rw [metadataString_data, metadataString_data] at h
    iterate 18 replace h := List.append_cancel_left h
    exact hx (String.ext (List.append_cancel_right h))
  · intro m n hx hc
    have h := congrArg String.data hc
    rw [metadataString_data, metadataString_data] at h
    iterate 20 replace h := List.append_cancel_left h
    exact hx (intToString_inj _ _ (String.ext h))

/-- Witness for the amended C3 at concrete records. -/
theorem fingerprint_fields_spec_witness :
    Apipie.hashModelMetadata hashConst sampleA = Apipie.hashModelMetadata hashConst sampleA ∧
    Apipie.metadataString { sampleA with description := "changed" } ≠
      Apipie.metadataString sampleA ∧
    Apipie.metadataString { sampleA with inputModalities := ["text", "image"] } ≠
      Apipie.metadataString sampleA ∧
    Apipie.metadataString { sampleA with maxTokens := 2000 } ≠
      Apipie.metadataString sampleA :=
  ⟨fingerprint_fields_spec.1 hashConst sampleA sampleA rfl rfl rfl rfl rfl rfl rfl rfl rfl rfl rfl,
   fingerprint_fields_spec.2.2.1 sampleA "changed" (by decide),
   fingerprint_fields_spec.2.2.2.2.2.2.2.2.2.2.1 sampleA ["text", "image"] (by decide),
   fingerprint_fields_spec.2.2.2.2.2.2.2.2.2.2.2.2 sampleA 2000 (by decide)⟩

/-- Counterexample to C3 as stated: `sampleJoinA` and `sampleJoinB` differ in
their input-modality list — a differentiating field — yet hash the very same
metadata string, because `["a", "b"]` and `["a,b"]` have the same comma-join;
their fingerprints therefore coincide under any digest, including SHA-256. -/
theorem fingerprint_modality_collision :
    Apipie.metadataString sampleJoinA = Apipie.metadataString sampleJoinB ∧
    sampleJoinA.inputModalities ≠ sampleJoinB.inputModalities ∧
    sampleJoinA.description = sampleJoinB.description ∧
    sampleJoinA.provider = sampleJoinB.provider ∧
    sampleJoinA.route = sampleJoinB.route ∧
    sampleJoinA.pool = sampleJoinB.pool ∧
    sampleJoinA.subtype = sampleJoinB.subtype ∧
    sampleJoinA.instructType = sampleJoinB.instructType ∧
    sampleJoinA.quantization = sampleJoinB.quantization ∧
    sampleJoinA.model = sampleJoinB.model ∧
    sampleJoinA.outputModalities = sampleJoinB.outputModalities ∧
    sampleJoinA.maxTokens = sampleJoinB.maxTokens :=
  ⟨by decide, by decide, rfl, rfl, rfl, rfl, rfl, rfl, rfl, rfl, rfl, rfl⟩

/-! ## Group-resolution pipeline lemmas (C5, C7) -/

theorem cacheKey_inj (h : String → String) (hLen : ∀ s, (h s).length = 64)
    (m1 m2 : Apipie.Model)
    (hk : Apipie.getModelCacheKey h m1 = Apipie.getModelCacheKey h m2) :
    m1.id = m2.id ∧ Apipie.hashModelMetadata h m1 = Apipie.hashModelMetadata h m2 := by
  have hd := congrArg String.data hk
  unfold Apipie.getModelCacheKey at hd
  rw [String.data_append, String.data_append, String.data_append, String.data_append,
    List.append_assoc, List.append_assoc] at hd
  have hlen : ("|".data ++ (Apipie.hashModelMetadata h m1).data).length =
      ("|".data ++ (Apipie.hashModelMetadata h m2).data).length := by
    have l1 : (Apipie.hashModelMetadata h m1).data.length = 64 := hLen _
    have l2 : (Apipie.hashModelMetadata h m2).data.length = 64 := hLen _
    simp [List.length_append, l1, l2]
  obtain ⟨hid, hrest⟩ := List.append_inj' hd hlen
  exact ⟨String.ext hid, String.ext (List.append_cancel_left hrest)⟩

theorem cacheGet_congr (h : String → String) (hLen : ∀ s, (h s).length = 64)
    (t : Apipie.DisplayTable) (m1 m2 : Apipie.Model)
    (hk : Apipie.getModelCacheKey h m1 = Apipie.getModelCacheKey h m2) :
    Apipie.cacheGet h t m1 = Apipie.cacheGet h t m2 := by
  obtain ⟨hid, hf⟩ := cacheKey_inj h hLen m1 m2 hk
  unfold Apipie.cacheGet Apipie.displayGet
  rw [hid, hf]

theorem cacheScanAux_snd (h : String → String) (t : Apipie.DisplayTable) :
    ∀ (ms : List Apipie.Model) (acc : List (String × String)) (unc : List Apipie.Model),
      (Apipie.cacheScanAux h t ms acc unc).2 =
        unc ++ ms.filter (fun m => Apipie.cacheGet h t m = "") := by
  intro ms
  induction ms with
  | nil => intro acc unc; simp [Apipie.cacheScanAux]
  | cons m ms ih =>
    intro acc unc
    by_cases hc : Apipie.cacheGet h t m ≠ ""
    · simp only [Apipie.cacheScanAux]
      rw [if_pos hc, ih, List.filter_cons_of_neg (by simpa using hc)]
    · have hc' : Apipie.cacheGet h t m = "" := not_not.1 hc
      simp only [Apipie.cacheScanAux]
      rw [if_neg hc, ih, List.filter_cons_of_pos (by simp [hc'])]
      simp [List.append_assoc]

theorem cacheScanAux_fst_mem (h : String → String) (t : Apipie.DisplayTable) :
    ∀ (ms : List Apipie.Model) (acc : List (String × String)) (unc : List Apipie.Model)
      (kv : String × String), kv ∈ (Apipie.cacheScanAux h t ms acc unc).1 →
      kv ∈ acc ∨ ∃ m ∈ ms, kv.1 = Apipie.getModelCacheKey h m ∧
        kv.2 = Apipie.cacheGet h t m ∧ Apipie.cacheGet h t m ≠ "" := by
  intro ms
  induction ms with
  | nil => intro acc unc kv hkv; exact Or.inl hkv
  | cons m ms ih =>
    intro acc unc kv hkv
    by_cases hc : Apipie.cacheGet h t m ≠ ""
    · simp only [Apipie.cacheScanAux] at hkv
      rw [if_pos hc] at hkv
      rcases ih _ _ _ hkv with ha | ⟨m', hm', hk, hv, hcm'⟩
      · rcases mem_aupsert _ _ _ _ ha with heq | hmem
        · refine Or.inr ⟨m, List.mem_cons_self .., ?_, ?_, hc⟩
          · rw [heq]
          · rw [heq]
        · exact Or.inl hmem
      · exact Or.inr ⟨m', List.mem_cons_of_mem _ hm', hk, hv, hcm'⟩
    · simp only [Apipie.cacheScanAux] at hkv
      rw [if_neg hc] at hkv
      rcases ih _ _ _ hkv with ha | ⟨m', hm', hk, hv, hcm'⟩
      · exact Or.inl ha
      · exact Or.inr ⟨m', List.mem_cons_of_mem _ hm', hk, hv, hcm'⟩

theorem scan_lookup_stable (h : String → String) (t : Apipie.DisplayTable) :
    ∀ (ms : List Apipie.Model) (acc : List (String × String)) (unc : List Apipie.Model)
      (k v : String), alookup acc k = some v →
      (∀ m' ∈ ms, Apipie.getModelCacheKey h m' = k → Apipie.cacheGet h t m' = v) →
      alookup (Apipie.cacheScanAux h t ms acc unc).1 k = some v := by
  intro ms
  induction ms with
  | nil => intro acc unc k v hv _; exact hv
  | cons m ms ih =>
    intro acc unc k v hv hcons
    by_cases hc : Apipie.cacheGet h t m ≠ ""
    · simp only [Apipie.cacheScanAux]
      rw [if_pos hc]
      refine ih _ _ k v ?_ (fun m' hm' hk' => hcons m' (List.mem_cons_of_mem _ hm') hk')
      by_cases hk : Apipie.getModelCacheKey h m = k
      · rw [← hk, alookup_aupsert_self, hcons m (List.mem_cons_self ..) hk]
      · rw [alookup_aupsert_ne _ _ _ _ (fun hh => hk hh.symm)]
        exact hv
    · simp only [Apipie.cacheScanAux]
      rw [if_neg hc]
      exact ih _ _ k v hv (fun m' hm' hk' => hcons m' (List.mem_cons_of_mem _ hm') hk')

theorem cacheScanAux_lookup (h : String → String) (t : Apipie.DisplayTable)
    (hLen : ∀ s, (h s).length = 64) :
    ∀ (ms : List Apipie.Model) (acc : List (String × String)) (unc : List Apipie.Model)
      (m : Apipie.Model), m ∈ ms → Apipie.cacheGet h t m ≠ "" →
      alookup (Apipie.cacheScanAux h t ms acc unc).1 (Apipie.getModelCacheKey h m) =
        some (Apipie.cacheGet h t m) := by
  intro ms
  induction ms with
  | nil => intro acc unc m hm; cases hm
  | cons m0 ms ih =>
    intro acc unc m hm hcm
    by_cases hc0 : Apipie.cacheGet h t m0 ≠ ""
    · simp only [Apipie.cacheScanAux]
      rw [if_pos hc0]
      rcases List.mem_cons.1 hm with rfl | hm'
      · refine scan_lookup_stable h t ms _ unc _ _ (alookup_aupsert_self ..) ?_
        intro m' hm' hk'
        exact cacheGet_congr h hLen t m' m hk'
      · exact ih _ unc m hm' hcm
    · simp only [Apipie.cacheScanAux]
      rw [if_neg hc0]
      rcases List.mem_cons.1 hm with rfl | hm'
      · exact absurd hcm hc0
      · exact ih acc _ m hm' hcm

theorem scan_none_of_uncached (h : String → String) (t : Apipie.DisplayTable)
    (hLen : ∀ s, (h s).length = 64) (ms : List Apipie.Model) (m : Apipie.Model)
    (hm : Apipie.cacheGet h t m = "") :
    alookup (Apipie.cacheScanAux h t ms [] []).1 (Apipie.getModelCacheKey h m) = none := by
  cases hl : alookup (Apipie.cacheScanAux h t ms [] []).1 (Apipie.getModelCacheKey h m) with
  | none => rfl
  | some v =>
    exfalso
    have hmem := alookup_mem _ _ _ hl
    rcases cacheScanAux_fst_mem h t ms [] [] _ hmem with ha | ⟨m', hm', hk, hv, hcm'⟩
    · cases ha
    · exact hcm' ((cacheGet_congr h hLen t m' m hk.symm).trans hm)

theorem fallbackFill_preserved (h : String → String) :
    ∀ (ms : List Apipie.Model) (r : List (String × String)) (k : String),
      (alookup r k).isSome →
      alookup (Apipie.fallbackFill h r ms) k = alookup r k := by
  intro ms
  induction ms with
  | nil => intro r k _; rfl
  | cons m ms ih =>
    intro r k hk
    simp only [Apipie.fallbackFill]
    by_cases hpres : (alookup r (Apipie.getModelCacheKey h m)).isSome = true
    · rw [if_pos hpres]
      exact ih r k hk
    · rw [if_neg hpres]
      have hne : k ≠ Apipie.getModelCacheKey h m := by
        intro hh
        rw [hh] at hk
        exact hpres hk
      have hlk : alookup (aupsert r (Apipie.getModelCacheKey h m) m.id) k = alookup r k :=
        alookup_aupsert_ne _ _ _ _ hne
      rw [ih _ k (by rw [hlk]; exact hk), hlk]

theorem fallbackFill_fills (h : String → String) (hLen : ∀ s, (h s).length = 64) :
    ∀ (ms : List Apipie.Model) (r : List (String × String)) (m : Apipie.Model),
      m ∈ ms → alookup r (Apipie.getModelCacheKey h m) = none →
      alookup (Apipie.fallbackFill h r ms) (Apipie.getModelCacheKey h m) = some m.id := by
  intro ms
  induction ms with
  | nil => intro r m hm; cases hm
  | cons m0 ms ih =>
    intro r m hm hnone
    simp only [Apipie.fallbackFill]
    rcases List.mem_cons.1 hm with rfl | hm'
    · rw [if_neg (by simp [hnone])]
      rw [fallbackFill_preserved h ms _ _ (by rw [alookup_aupsert_self]; rfl)]
      exact alookup_aupsert_self ..
    · by_cases hp : (alookup r (Apipie.getModelCacheKey h m0)).isSome = true
      · rw [if_pos hp]
        exact ih r m hm' hnone
      · rw [if_neg hp]
        by_cases hkey : Apipie.getModelCacheKey h m = Apipie.getModelCacheKey h m0
        · have hid : m.id = m0.id := (cacheKey_inj h hLen m m0 hkey).1
          rw [fallbackFill_preserved h ms _ _ (by rw [hkey, alookup_aupsert_self]; rfl)]
          rw [hkey, alookup_aupsert_self, hid]
        · exact ih _ m hm' (by rw [alookup_aupsert_ne _ _ _ _ hkey]; exact hnone)

/-- C5: when the generation service fails entirely (the oracle yields `none`,
covering network errors, non-success statuses, malformed bodies and empty
choices), `createDisplayNamesForGroup` persists nothing — the cache is
unchanged — and still returns a complete mapping: every cached record's key
maps to its cached name and every uncached record's key to its raw model id.
The digest-length hypothesis reflects SHA-256's fixed 64-hex-character
output, which makes cache keys parse unambiguously. -/
theorem group_fallback_on_generation_failure :
    ∀ (h : String → String) (svc : List Apipie.Model → Option String)
      (t : Apipie.DisplayTable) (models : List Apipie.Model),
      (∀ s, (h s).length = 64) → (∀ ms, svc ms = none) →
      (Apipie.createDisplayNamesForGroup h svc t models).cache = t ∧
      (∀ m ∈ models,
        alookup (Apipie.createDisplayNamesForGroup h svc t models).result
            (Apipie.getModelCacheKey h m) =
          some (if Apipie.cacheGet h t m = "" then m.id else Apipie.cacheGet h t m)) := by
  intro h svc t models hLen hsvc
  simp only [Apipie.createDisplayNamesForGroup, Apipie.generateDisplayNamesForGroup, hsvc]
  by_cases hemp : (Apipie.cacheScanAux h t models [] []).2.isEmpty = true
  · rw [if_pos hemp]
    have hall : ∀ m ∈ models, Apipie.cacheGet h t m ≠ "" := by
      intro m hm hcm
      have h2 := cacheScanAux_snd h t models [] []
      rw [List.isEmpty_iff] at hemp
      rw [hemp, List.nil_append] at h2
      have : m ∈ List.filter (fun m => Apipie.cacheGet h t m = "") models :=
        List.mem_filter.2 ⟨hm, by simp [hcm]⟩
      rw [← h2] at this
      cases this
    refine ⟨rfl, fun m hm => ?_⟩
    rw [if_neg (hall m hm)]
    exact cacheScanAux_lookup h t hLen models [] [] m hm (hall m hm)
  · rw [if_neg hemp]
    refine ⟨rfl, fun m hm => ?_⟩
    by_cases hcm : Apipie.cacheGet h t m = ""
    · rw [if_pos hcm]
      have hunc : m ∈ (Apipie.cacheScanAux h t models [] []).2 := by
        rw [cacheScanAux_snd, List.nil_append]
        exact List.mem_filter.2 ⟨hm, by simp [hcm]⟩
      exact fallbackFill_fills h hLen _ _ m hunc
        (scan_none_of_uncached h t hLen models m hcm)
    · rw [if_neg hcm]
      have hsc := cacheScanAux_lookup h t hLen models [] [] m hm hcm
      rw [fallbackFill_preserved h _ _ _ (by rw [hsc]; rfl), hsc]

/-- Witness for C5: one uncached record, unreachable service — the cache
stays empty and the record maps to its raw id. -/
theorem group_fallback_witness :
    (Apipie.createDisplayNamesForGroup hashConst (fun _ => none) [] [sampleA]).cache = [] ∧
    alookup (Apipie.createDisplayNamesForGroup hashConst (fun _ => none) [] [sampleA]).result
      (Apipie.getModelCacheKey hashConst sampleA) = some "m" :=
  ⟨(group_fallback_on_generation_failure hashConst (fun _ => none) [] [sampleA]
      (fun _ => rfl) (fun _ => rfl)).1,
   ((group_fallback_on_generation_failure hashConst (fun _ => none) [] [sampleA]
      (fun _ => rfl) (fun _ => rfl)).2 sampleA (by decide)).trans (by decide)⟩

/-- C7: on a group whose every record is cached, `createDisplayNamesForGroup`
makes zero generation-service calls, leaves the cache untouched and returns
exactly the cached names: every record's key maps to its cached name, and
every entry of the mapping is some record's key with its cached name. -/
theorem group_all_cached_uses_cache_only :
    ∀ (h : String → String) (svc : List Apipie.Model → Option String)
      (t : Apipie.DisplayTable) (models : List Apipie.Model),
      (∀ s, (h s).length = 64) → (∀ m ∈ models, Apipie.cacheGet h t m ≠ "") →
      (Apipie.createDisplayNamesForGroup h svc t models).genCalls = 0 ∧
      (Apipie.createDisplayNamesForGroup h svc t models).cache = t ∧
      (∀ m ∈ models,
        alookup (Apipie.createDisplayNamesForGroup h svc t models).result
          (Apipie.getModelCacheKey h m) = some (Apipie.cacheGet h t m)) ∧
      (∀ kv ∈ (Apipie.createDisplayNamesForGroup h svc t models).result,
        ∃ m ∈ models, kv.1 = Apipie.getModelCacheKey h m ∧
          kv.2 = Apipie.cacheGet h t m) := by
  intro h svc t models hLen hall
  have hunc : (Apipie.cacheScanAux h t models [] []).2 = [] := by
    rw [cacheScanAux_snd, List.nil_append]
    refine List.filter_eq_nil_iff.2 ?_
    intro m hm
    simp [hall m hm]
  have hemp : (Apipie.cacheScanAux h t models [] []).2.isEmpty = true := by
    rw [hunc]
    rfl
  simp only [Apipie.createDisplayNamesForGroup]
  rw [if_pos hemp]
  refine ⟨rfl, rfl, fun m hm => ?_, fun kv hkv => ?_⟩
  · exact cacheScanAux_lookup h t hLen models [] [] m hm (hall m hm)
  · rcases cacheScanAux_fst_mem h t models [] [] kv hkv with ha | ⟨m, hm, hk, hv, _⟩
    · cases ha
    · exact ⟨m, hm, hk, hv⟩

/-- Witness for C7: one cached record — no generation call, cache unchanged,
the cached name returned. -/
theorem group_all_cached_witness :
    (Apipie.createDisplayNamesForGroup hashConst (fun _ => none) sampleCache
      [sampleA]).genCalls = 0 ∧
    (Apipie.createDisplayNamesForGroup hashConst (fun _ => none) sampleCache
      [sampleA]).cache = sampleCache ∧
    alookup (Apipie.createDisplayNamesForGroup hashConst (fun _ => none) sampleCache
      [sampleA]).result (Apipie.getModelCacheKey hashConst sampleA) = some "Cached A" :=
  ⟨(group_all_cached_uses_cache_only hashConst (fun _ => none) sampleCache [sampleA]
      (fun _ => rfl) (fun m hm => by revert m hm; decide)).1,
   (group_all_cached_uses_cache_only hashConst (fun _ => none) sampleCache [sampleA]
      (fun _ => rfl) (fun m hm => by revert m hm; decide)).2.1,
   ((group_all_cached_uses_cache_only hashConst (fun _ => none) sampleCache [sampleA]
      (fun _ => rfl) (fun m hm => by revert m hm; decide)).2.2.1 sampleA
      (by decide)).trans (by decide)⟩

/-! ## C8: generation-response parser -/

theorem getD_mem_of_lt {α : Type} :
    ∀ (l : List α) (n : Nat) (d : α), n < l.length → l.getD n d ∈ l := by
  intro l
  induction l with
  | nil => intro n d hn; simp at hn
  | cons a tl ih =>
    intro n d hn
    cases n with
    | zero => exact List.mem_cons_self ..
    | succ n => exact List.mem_cons_of_mem _ (ih n d (by simpa using hn))

theorem processLine_skip (h : String → String) (models : List Apipie.Model)
    (acc : List (String × String)) (line : List Char)
    (hsp : splitFirst Apipie.sepArrow (trimSpaceList line) = none) :
    Apipie.processLine h models acc line = acc := by
  simp only [Apipie.processLine, hsp]

theorem processLine_entries (h : String → String) (models : List Apipie.Model)
    (acc : List (String × String)) (line : List Char)
    (hacc : ∀ kv ∈ acc, kv.2 ≠ "" ∧ kv.2.length ≤ 60 ∧
      (splitFirst ('\n' :: []) kv.2.data).isSome = false ∧
      ∃ m ∈ models, kv.1 = Apipie.getModelCacheKey h m) :
    ∀ kv ∈ Apipie.processLine h models acc line,
      kv.2 ≠ "" ∧ kv.2.length ≤ 60 ∧
      (splitFirst ('\n' :: []) kv.2.data).isSome = false ∧
      ∃ m ∈ models, kv.1 = Apipie.getModelCacheKey h m := by
  intro kv hkv
  cases hsp : splitFirst Apipie.sepArrow (trimSpaceList line) with
  | none =>
    refine hacc kv ?_
    simpa only [Apipie.processLine, hsp] using hkv
  | some pr =>
    obtain ⟨p0, p1⟩ := pr
    simp only [Apipie.processLine, hsp] at hkv
    split at hkv
    · split at hkv
      · rename_i hidx hcond
        rcases mem_aupsert _ _ _ _ hkv with heq | hmem
        · obtain ⟨hlen1, hlen2, hnl⟩ := hcond
          rw [heq]
          refine ⟨?_, hlen2, hnl, ?_⟩
          · intro hemp
            have hd : trimSpaceList p1 = [] := congrArg String.data hemp
            rw [hd] at hlen1
            exact absurd hlen1 (by decide)
          · obtain ⟨hge, hlt⟩ := hidx
            refine ⟨_, getD_mem_of_lt models _ default (by omega), rfl⟩
        · exact hacc kv hmem
      · exact hacc kv hkv
    · exact hacc kv hkv

theorem foldl_processLine_entries (h : String → String) (models : List Apipie.Model) :
    ∀ (lines : List (List Char)) (acc : List (String × String)),
      (∀ kv ∈ acc, kv.2 ≠ "" ∧ kv.2.length ≤ 60 ∧
        (splitFirst ('\n' :: []) kv.2.data).isSome = false ∧
        ∃ m ∈ models, kv.1 = Apipie.getModelCacheKey h m) →
      ∀ kv ∈ lines.foldl (Apipie.processLine h models) acc,
        kv.2 ≠ "" ∧ kv.2.length ≤ 60 ∧
        (splitFirst ('\n' :: []) kv.2.data).isSome = false ∧
        ∃ m ∈ models, kv.1 = Apipie.getModelCacheKey h m := by
  intro lines
  induction lines with
  | nil => intro acc hacc kv hkv; exact hacc kv hkv
  | cons l ls ih =>
    intro acc hacc kv hkv
    rw [List.foldl_cons] at hkv
    exact ih _ (processLine_entries h models acc l hacc) kv hkv

/-- C8 (amended): every entry the parser produces carries a non-empty,
at-most-60-character, newline-free name keyed by some input record's cache
key; and a response none of whose lines contains the separator `"] ->"`
contributes nothing.  A leading `[` is optional rather than required (it is
stripped with `TrimPrefix` when present), the pre-separator text is
whitespace-trimmed before that, and the index is parsed by `Atoi` (which also
accepts a sign), so lines outside the strict `[i] -> name` shape can be
accepted. -/
theorem parse_response_entries_spec :
    (∀ (h : String → String) (models : List Apipie.Model) (response : String)
       (kv : String × String),
      kv ∈ Apipie.parseGroupNamesResponse h response models →
      kv.2 ≠ "" ∧ kv.2.length ≤ 60 ∧
      (splitFirst ('\n' :: []) kv.2.data).isSome = false ∧
      ∃ m ∈ models, kv.1 = Apipie.getModelCacheKey h m) ∧
    (∀ (h : String → String) (models : List Apipie.Model) (response : String),
      (∀ line ∈ splitOnChar '\n' response.data,
        splitFirst Apipie.sepArrow (trimSpaceList line) = none) →
      Apipie.parseGroupNamesResponse h response models = []) := by
  constructor
  · intro h models response kv hkv
    exact foldl_processLine_entries h models _ [] (fun kv hk => absurd hk (by simp)) kv hkv
  · intro h models response hnone
    unfold Apipie.parseGroupNamesResponse
    generalize hls : splitOnChar '\n' response.data = lines at hnone
    clear hls
    induction lines with
    | nil => rfl
    | cons l ls ih =>
      rw [List.foldl_cons, processLine_skip h models [] l (hnone l (List.mem_cons_self ..))]
      exact ih (fun line hm => hnone line (List.mem_cons_of_mem _ hm))

/-- Witness for the amended C8: the accepted line `[1] -> Nice` yields an
entry with the first record's key and a short clean name; a separator-free
response yields nothing. -/
theorem parse_response_entries_witness :
    (((Apipie.getModelCacheKey hashConst sampleA, "Nice") : String × String).2 ≠ "" ∧
      ((Apipie.getModelCacheKey hashConst sampleA, "Nice") : String × String).2.length ≤ 60 ∧
      (splitFirst ('\n' :: [])
        ((Apipie.getModelCacheKey hashConst sampleA, "Nice") : String × String).2.data).isSome
          = false ∧
      ∃ m ∈ [sampleA],
        ((Apipie.getModelCacheKey hashConst sampleA, "Nice") : String × String).1 =
          Apipie.getModelCacheKey hashConst m) ∧
    Apipie.parseGroupNamesResponse hashConst "no separator here" [sampleA] = [] :=
  ⟨parse_response_entries_spec.1 hashConst [sampleA] "[1] -> Nice"
      (Apipie.getModelCacheKey hashConst sampleA, "Nice") (by decide),
   parse_response_entries_spec.2 hashConst [sampleA] "no separator here" (by decide)⟩

/-- Counterexample to C8 as stated: the line `2] -> Foo` has no leading
bracket — it is not of the form `[i] -> name` for any index and name — yet
the parser accepts it and maps the second record's cache key to `Foo`. -/
theorem parse_accepts_bracketless_line :
    Apipie.parseGroupNamesResponse hashConst "2] -> Foo" [sampleA, sampleB] =
      [(Apipie.getModelCacheKey hashConst sampleB, "Foo")] ∧
    ¬ ∃ (i : Nat) (name : String), 1 ≤ i ∧ i ≤ 2 ∧
        ("2] -> Foo" : String) = "[" ++ toString i ++ "] -> " ++ name := by
  constructor
  · decide
  · rintro ⟨i, name, h1, h2, heq⟩
    have hd := congrArg String.data heq
    rw [String.data_append, String.data_append, String.data_append] at hd
    have hhead : ("2] -> Foo" : String).data.head? = some '2' := rfl
    rw [hd] at hhead
    rw [show ("[" : String).data = ['['] from rfl] at hhead
    simp only [List.singleton_append, List.cons_append, List.head?_cons] at hhead
    exact absurd hhead (by decide)
